import Mathlib

/-
Shallow embedding of the ApexDoc/JSDoc Comment Generator's declaration
locator and signature extractor, translated from the TypeScript sources
`src/ApexHelpers.ts`, `src/SharedHelpers.ts` (the modules wired up by the
current entry point through `ApexHandler.ts`) and the near-identical
historical variant in `src/extension.ts`.

Documents are modelled as lists of lines (strings without line
terminators), exactly the view `vscode.TextDocument` gives the scanner
(`lineCount`, `lineAt(i).text`).  JavaScript regular-expression *tests*
are embedded by a small Brzozowski-derivative matcher over a regex AST
that mirrors each pattern literal character by character; the few
`match`/capture uses (`\bclass\s+([A-Za-z_]\w*)` and `\(([^)]*)\)`) are
hand-compiled searches whose leftmost-match semantics is deterministic
because the sub-patterns involved use disjoint character classes.
-/

namespace ApexDocGen

/-! ## Character classes and basic string helpers -/

/-- JavaScript's `\s` class (WhiteSpace plus LineTerminator code points). -/
def isJsWs (c : Char) : Bool :=
  c = ' ' || c = '\t' || c = '\n' || c = '\r' || c = '\x0b' || c = '\x0c' ||
  c = Char.ofNat 0xa0 || c = Char.ofNat 0x1680 ||
  (0x2000 ≤ c.toNat && c.toNat ≤ 0x200a) ||
  c = Char.ofNat 0x2028 || c = Char.ofNat 0x2029 ||
  c = Char.ofNat 0x202f || c = Char.ofNat 0x205f ||
  c = Char.ofNat 0x3000 || c = Char.ofNat 0xfeff

/-- JavaScript's `\w` class: `[A-Za-z0-9_]`. -/
def isWordChar (c : Char) : Bool :=
  ('A' ≤ c && c ≤ 'Z') || ('a' ≤ c && c ≤ 'z') || ('0' ≤ c && c ≤ '9') || c = '_'

/-- The class `[A-Za-z_]` (identifier start). -/
def isIdentStart (c : Char) : Bool :=
  ('A' ≤ c && c ≤ 'Z') || ('a' ≤ c && c ≤ 'z') || c = '_'

/-- The class `[A-Z0-9_]` of the enum-member pattern (case sensitive). -/
def isUpperNum (c : Char) : Bool :=
  ('A' ≤ c && c ≤ 'Z') || ('0' ≤ c && c ≤ '9') || c = '_'

/-- The `{` character (written by code point to keep literals plain). -/
def braceL : Char := Char.ofNat 123

/-- The `}` character. -/
def braceR : Char := Char.ofNat 125

/-- `String.prototype.trim()` on a character list. -/
def trimChars (s : List Char) : List Char :=
  ((s.dropWhile isJsWs).reverse.dropWhile isJsWs).reverse

/-- `a.includes(pat)`: `pat` occurs as a contiguous substring of `s`. -/
def hasSub (pat : List Char) : List Char → Bool
  | [] => pat.isEmpty
  | c :: rest => pat.isPrefixOf (c :: rest) || hasSub pat rest

/-- Case-insensitive prefix comparison (ASCII folding, as the `/i` flag
acts on the letters appearing in these patterns). -/
def ciLook : List Char → List Char → Bool
  | [], _ => true
  | _ :: _, [] => false
  | p :: ps, c :: cs => p.toLower = c.toLower && ciLook ps cs

/-- `s.split(",")` for the single-character separator used by the code. -/
def splitOnComma : List Char → List (List Char)
  | [] => [[]]
  | c :: rest =>
    if c = ',' then [] :: splitOnComma rest
    else
      match splitOnComma rest with
      | s :: ss => (c :: s) :: ss
      | [] => [[c]]

/-- `stripLineComments` (SharedHelpers.ts): `s.replace(/\/\/.*$/, "")` —
drop everything from the first `//` on (lines carry no terminators). -/
def stripLineComments : List Char → List Char
  | [] => []
  | '/' :: '/' :: _ => []
  | c :: rest => c :: stripLineComments rest

/-! ## Regex AST and derivative matcher

`rmatch r s` decides whole-string membership of `s` in the language of
`r`.  A `test` of a `^`-anchored pattern is membership of
`pattern · anyCh*`; the enum-member pattern is anchored on both ends and
tested directly.  Backtracking order is irrelevant for a boolean test. -/

inductive Rx where
  | emp : Rx
  | eps : Rx
  | cls : (Char → Bool) → Rx
  | seq : Rx → Rx → Rx
  | alt : Rx → Rx → Rx
  | star : Rx → Rx

namespace Rx

def nullable : Rx → Bool
  | emp => false
  | eps => true
  | cls _ => false
  | seq a b => nullable a && nullable b
  | alt a b => nullable a || nullable b
  | star _ => true

/-- Smart sequence constructor (keeps derivative terms small). -/
def seqS : Rx → Rx → Rx
  | emp, _ => emp
  | _, emp => emp
  | eps, b => b
  | a, eps => a
  | a, b => seq a b

/-- Smart alternation constructor. -/
def altS : Rx → Rx → Rx
  | emp, b => b
  | a, emp => a
  | a, b => alt a b

def deriv : Rx → Char → Rx
  | emp, _ => emp
  | eps, _ => emp
  | cls p, c => if p c then eps else emp
  | seq a b, c =>
    if nullable a then altS (seqS (deriv a c) b) (deriv b c)
    else seqS (deriv a c) b
  | alt a b, c => altS (deriv a c) (deriv b c)
  | star a, c => seqS (deriv a c) (star a)

def rmatch (r : Rx) : List Char → Bool
  | [] => nullable r
  | c :: rest => rmatch (deriv r c) rest

end Rx

open Rx

/-- Sequence a list of regexes. -/
def rxSeq (l : List Rx) : Rx := l.foldr seqS eps

/-- A literal string, compared case-insensitively (`/i` patterns). -/
def istr (w : String) : Rx :=
  w.data.foldr (fun c acc => seqS (cls (fun ch => ch.toLower = c.toLower)) acc) eps

/-- A literal string given as characters, compared case-insensitively
(used for the interpolated class name of the constructor pattern). -/
def ciLit (w : List Char) : Rx :=
  w.foldr (fun c acc => seqS (cls (fun ch => ch.toLower = c.toLower)) acc) eps

def rxOpt (r : Rx) : Rx := altS r eps

def rxPlus (r : Rx) : Rx := seqS r (star r)

def anyCh : Rx := cls (fun _ => true)

/-- `.` (anything but a line terminator). -/
def dotCh : Rx :=
  cls (fun c => !(c = '\n' || c = '\r' || c = Char.ofNat 0x2028 || c = Char.ofNat 0x2029))

def wsR : Rx := cls isJsWs
def wsStar : Rx := star wsR
def wsPlus : Rx := rxPlus wsR

/-- `(public|private|protected|global)?`. -/
def visR : Rx :=
  rxOpt (altS (istr "public") (altS (istr "private") (altS (istr "protected") (istr "global"))))

/-- `[A-Za-z_]\w*`. -/
def identR : Rx := seqS (cls isIdentStart) (star (cls isWordChar))

/-- The class `[\w<>\[\],\s?]`. -/
def typeCh : Rx :=
  cls (fun c => isWordChar c || c = '<' || c = '>' || c = '[' || c = ']' ||
                c = ',' || isJsWs c || c = '?')

/-- `pattern.test(s)` for a `^`-anchored pattern: some prefix matches. -/
def testStart (r : Rx) (s : List Char) : Bool := rmatch (seqS r (star anyCh)) s

/-- `/^\s*(public|private|protected|global)?\s*(static\s+)?[\w<>\[\],\s?]+\s+[A-Za-z_]\w*\s*\(/i`. -/
def methodRx : Rx :=
  rxSeq [wsStar, visR, wsStar, rxOpt (seqS (istr "static") wsPlus),
         rxPlus typeCh, wsPlus, identR, wsStar, istr "("]

def methodTest (s : List Char) : Bool := testStart methodRx s

/-- `/^\s*(public|private|protected|global)?\s*(virtual|abstract|with\s+sharing|without\s+sharing)?\s*(class|interface|enum)\s+[A-Za-z_]\w*/i`. -/
def classRx : Rx :=
  rxSeq [wsStar, visR, wsStar,
         rxOpt (altS (istr "virtual") (altS (istr "abstract")
           (altS (rxSeq [istr "with", wsPlus, istr "sharing"])
                 (rxSeq [istr "without", wsPlus, istr "sharing"])))),
         wsStar, altS (istr "class") (altS (istr "interface") (istr "enum")),
         wsPlus, identR]

def classTest (s : List Char) : Bool := testStart classRx s

/-- `/^\s*(public|private|protected|global)?\s*(static\s+)?[\w<>\[\],\s?]+\s+[A-Za-z_]\w*\s*\{\s*get;\s*set;\s*\}/i`. -/
def propertyRx : Rx :=
  rxSeq [wsStar, visR, wsStar, rxOpt (seqS (istr "static") wsPlus),
         rxPlus typeCh, wsPlus, identR, wsStar, cls (fun c => c = braceL),
         wsStar, istr "get;", wsStar, istr "set;", wsStar, cls (fun c => c = braceR)]

def propertyTest (s : List Char) : Bool := testStart propertyRx s

/-- `/^\s*[A-Z0-9_]+\s*(=.+)?\s*,?\s*$/` (anchored both ends, case sensitive). -/
def enumValueRx : Rx :=
  rxSeq [wsStar, rxPlus (cls isUpperNum), wsStar,
         rxOpt (seqS (istr "=") (rxPlus dotCh)), wsStar, rxOpt (istr ","), wsStar]

def enumValueTest (s : List Char) : Bool := rmatch enumValueRx s

/-- `^\s*(public|private|protected|global)?\s*${className}\s*\(` with `/i`. -/
def ctorRx (className : List Char) : Rx :=
  rxSeq [wsStar, visR, wsStar, ciLit className, wsStar, istr "("]

def ctorTest (className s : List Char) : Bool := testStart (ctorRx className) s

/-! ## Hand-compiled word-boundary searches -/

/-- `\b` holds before the current position given the previous character. -/
def boundaryOk : Option Char → Bool
  | none => true
  | some c => !isWordChar c

/-- The next character (if any) is a non-word character (`\b` after). -/
def afterNonWord : List Char → Bool
  | [] => true
  | d :: _ => !isWordChar d

/-- After a keyword: `\s+[A-Za-z_]` — at least one whitespace, then an
identifier-start character. -/
def wsThenIdent (t : List Char) : Bool :=
  match t with
  | [] => false
  | d :: _ =>
    isJsWs d &&
      (match t.dropWhile isJsWs with
       | [] => false
       | e :: _ => isIdentStart e)

/-- `/\b(class|interface)\b/i.test(s)` (scan with previous-character context). -/
def kwClassOrInterfaceAux (prev : Option Char) : List Char → Bool
  | [] => false
  | c :: rest =>
    (boundaryOk prev &&
      ((ciLook "class".data (c :: rest) && afterNonWord ((c :: rest).drop 5)) ||
       (ciLook "interface".data (c :: rest) && afterNonWord ((c :: rest).drop 9)))) ||
    kwClassOrInterfaceAux (some c) rest

def kwClassOrInterface (s : List Char) : Bool := kwClassOrInterfaceAux none s

/-- `/\benum\s+[A-Za-z_]\w*/i.test(s)`. -/
def kwEnumDeclAux (prev : Option Char) : List Char → Bool
  | [] => false
  | c :: rest =>
    (boundaryOk prev && ciLook "enum".data (c :: rest) && wsThenIdent ((c :: rest).drop 4)) ||
    kwEnumDeclAux (some c) rest

def kwEnumDecl (s : List Char) : Bool := kwEnumDeclAux none s

/-- The capture of `s.match(/\bclass\s+([A-Za-z_]\w*)/i)` at one
position: the identifier after `class\s+`, or `none` if the tail does
not fit. -/
def classNameAfter (t : List Char) : Option (List Char) :=
  match t with
  | [] => none
  | d :: _ =>
    if isJsWs d then
      match t.dropWhile isJsWs with
      | [] => none
      | e :: es => if isIdentStart e then some (e :: es.takeWhile isWordChar) else none
    else none

/-- Leftmost match of `/\bclass\s+([A-Za-z_]\w*)/i`, returning group 1
(the `\s+`/identifier split is deterministic: the classes are disjoint). -/
def classCaptureAux (prev : Option Char) : List Char → Option (List Char)
  | [] => none
  | c :: rest =>
    if boundaryOk prev && ciLook "class".data (c :: rest) then
      match classNameAfter ((c :: rest).drop 5) with
      | some name => some name
      | none => classCaptureAux (some c) rest
    else classCaptureAux (some c) rest

def classCapture (s : List Char) : Option (List Char) := classCaptureAux none s

/-- `/\)\s*[{;]/.test(s)`: a `)` followed by optional whitespace and a
body-open or statement-terminator token. -/
def bodyOpenAfter (rest : List Char) : Bool :=
  match rest.dropWhile isJsWs with
  | [] => false
  | c :: _ => c = braceL || c = ';'

def closeThenBody : List Char → Bool
  | [] => false
  | c :: rest => (c = ')' && bodyOpenAfter rest) || closeThenBody rest

/-- The capture of `sig.match(/\(([^)]*)\)/)`: the text between the
first `(` and the first `)` after it (a match exists iff such a `)`
exists; no later `(` can start a match when the first one cannot). -/
def firstParenCapture (s : List Char) : Option (List Char) :=
  match s.dropWhile (fun c => !(c = '(')) with
  | [] => none
  | _ :: after =>
    if after.contains ')' then some (after.takeWhile (fun c => !(c = ')'))) else none

/-- The last element of `p.split(/\s+/)` (with the code's `|| ""`
fallback): the maximal run of non-whitespace characters at the end. -/
def lastWsToken (p : List Char) : List Char :=
  (p.reverse.takeWhile (fun c => !isJsWs c)).reverse

/-- `last.replace(/[^A-Za-z0-9_]/g, "")` applied to the last token. -/
def lastNameClean (p : List Char) : List Char :=
  (lastWsToken p).filter isWordChar

/-! ## The document model and declaration kinds -/

/-- A document is its ordered list of lines (`lineCount` = length,
`lineAt i` = `getD i ""`; the scanners only read in-range lines or guard
out-of-range reads themselves, where TypeScript would throw). -/
def lineAt (doc : List String) (n : Nat) : String := doc.getD n ""

def lineChars (doc : List String) (n : Nat) : List Char := (lineAt doc n).data

/-- `ApexKind` from ApexHelpers.ts.  `cls` stands for the source's
`"class"` tag and `ctor` for `"constructor"` (both are Lean keywords). -/
inductive ApexKind where
  | cls : ApexKind
  | method : ApexKind
  | ctor : ApexKind
  | property : ApexKind
  | enumValue : ApexKind
deriving DecidableEq, Repr

/-- The `"method" | "constructor"` parameter type of `getApexParams`. -/
inductive MCKind where
  | method : MCKind
  | ctor : MCKind
deriving DecidableEq, Repr

/-! ## Context predicates (ApexHelpers.ts) -/

/-- Loop body of `isInsideEnumBlock`: scan from `i` down to `stop`. -/
def enumBlockScan (doc : List String) (stop : Nat) : Nat → Bool
  | 0 =>
    let txt := stripLineComments (lineChars doc 0)
    if kwClassOrInterface txt then false
    else if kwEnumDecl txt then true
    else false
  | i + 1 =>
    let txt := stripLineComments (lineChars doc (i + 1))
    if kwClassOrInterface txt then false
    else if kwEnumDecl txt then true
    else if stop < i + 1 then enumBlockScan doc stop i
    else false

/-- `isInsideEnumBlock(doc, line)`: walk up at most 200 lines; `false`
on the first `\b(class|interface)\b`, `true` on the first
`\benum\s+ident`. -/
def isInsideEnumBlock (doc : List String) (line : Nat) : Bool :=
  enumBlockScan doc (line - 200) line

/-- Loop body of `findEnclosingClassName`: scan from `i` down to `stop`. -/
def classNameScan (doc : List String) (stop : Nat) : Nat → Option (List Char)
  | 0 => classCapture (stripLineComments (lineChars doc 0))
  | i + 1 =>
    match classCapture (stripLineComments (lineChars doc (i + 1))) with
    | some name => some name
    | none => if stop < i + 1 then classNameScan doc stop i else none

/-- `findEnclosingClassName(doc, line)`: walk up at most 400 lines for
the first `\bclass\s+([A-Za-z_]\w*)` capture. -/
def findEnclosingClassName (doc : List String) (line : Nat) : Option (List Char) :=
  classNameScan doc (line - 400) line

/-! ## The grammar rules and `apexKindAtLine` -/

/-- Enum-member rule: the all-caps line pattern gated by the enum-block
context predicate. -/
def enumRule (doc : List String) (line : Nat) : Bool :=
  enumValueTest (stripLineComments (lineChars doc line)) && isInsideEnumBlock doc line

/-- Constructor rule: the enclosing class name resolves and the line
matches `^\s*(vis)?\s*ClassName\s*\(`. -/
def ctorRule (doc : List String) (line : Nat) : Bool :=
  match findEnclosingClassName doc line with
  | some cn => ctorTest cn (stripLineComments (lineChars doc line))
  | none => false

/-- Method rule. -/
def methodRule (doc : List String) (line : Nat) : Bool :=
  methodTest (stripLineComments (lineChars doc line))

/-- Class/interface/enum rule. -/
def classRule (doc : List String) (line : Nat) : Bool :=
  classTest (stripLineComments (lineChars doc line))

/-- Property (`{ get; set; }`) rule. -/
def propertyRule (doc : List String) (line : Nat) : Bool :=
  propertyTest (stripLineComments (lineChars doc line))

/-- `apexKindAtLine(doc, line)`: the rules in source order — enum value,
constructor, method, class/interface/enum, property — first match wins,
`none` when no rule fires. -/
def apexKindAtLine (doc : List String) (line : Nat) : Option ApexKind :=
  if enumRule doc line then some ApexKind.enumValue
  else if ctorRule doc line then some ApexKind.ctor
  else if methodRule doc line then some ApexKind.method
  else if classRule doc line then some ApexKind.cls
  else if propertyRule doc line then some ApexKind.property
  else none

/-! ## Generic bounded scanners (the `for` loops of the locator) -/

/-- Upward scan: try `f` at `i`, `i-1`, …, stopping after `stop`
(callers always have `stop ≤ i`). -/
def scanUpF {α : Type} (f : Nat → Option α) (stop : Nat) : Nat → Option α
  | 0 => f 0
  | i + 1 =>
    match f (i + 1) with
    | some a => some a
    | none => if stop < i + 1 then scanUpF f stop i else none

/-- Downward scan with explicit iteration count: try `f` at `i`,
`i+1`, …, for `fuel` lines. -/
def scanDownFuel {α : Type} (f : Nat → Option α) : Nat → Nat → Option α
  | 0, _ => none
  | fuel + 1, i =>
    match f i with
    | some a => some a
    | none => scanDownFuel f fuel (i + 1)

/-! ## Annotation-aware helpers (ApexHelpers.ts) -/

/-- `isAnnotationLine(text)`: the trimmed text starts with `@`. -/
def startsWithAt : List Char → Bool
  | '@' :: _ => true
  | _ => false

def isAnnotationLine (text : String) : Bool := startsWithAt (trimChars text.data)

/-- The guarded accessor `t(n)` of `isInsideAnnotationRun` (out-of-range
lines read as `""`). -/
def safeTrimAt (doc : List String) (n : Nat) : List Char :=
  if n < doc.length then trimChars (lineChars doc n) else []

/-- `s === "" || s.startsWith("@")`. -/
def annoOrBlank (s : List Char) : Bool := s.isEmpty || startsWithAt s

/-- Upward half of `isInsideAnnotationRun`: from `line` down to `stop`,
stop at the first non-blank non-annotation line, report whether an
annotation line was seen. -/
def upAnnoScan (doc : List String) (stop : Nat) : Nat → Bool
  | 0 =>
    let s := safeTrimAt doc 0
    annoOrBlank s && startsWithAt s
  | i + 1 =>
    let s := safeTrimAt doc (i + 1)
    if !annoOrBlank s then false
    else if startsWithAt s then true
    else if stop < i + 1 then upAnnoScan doc stop i
    else false

/-- Downward half of `isInsideAnnotationRun` (`fuel` = number of lines
of the window `[line, min(lineCount-1, line+10)]`). -/
def downAnnoScan (doc : List String) : Nat → Nat → Bool
  | 0, _ => false
  | fuel + 1, i =>
    let s := safeTrimAt doc i
    if !annoOrBlank s then false
    else if startsWithAt s then true
    else downAnnoScan doc fuel (i + 1)

/-- `isInsideAnnotationRun(doc, line)`: a blank/annotation run within 10
lines in either direction contains at least one annotation line. -/
def isInsideAnnotationRun (doc : List String) (line : Nat) : Bool :=
  upAnnoScan doc (line - 10) line ||
  downAnnoScan doc (min (doc.length - 1) (line + 10) + 1 - line) line

/-- The trimmed line is blank or starts with `@` (skip condition of
`findNextDeclDown`, which reads only in-range lines). -/
def blankAnnoAt (doc : List String) (i : Nat) : Bool :=
  annoOrBlank (trimChars (lineChars doc i))

/-- The `while` skip loop of `findNextDeclDown` (`fuel` bounds the loop
by `doc.length - i`, exactly the iterations the guard `i < lineCount`
allows). -/
def skipBlankAnnoFuel (doc : List String) : Nat → Nat → Nat
  | 0, i => i
  | fuel + 1, i =>
    if i < doc.length && blankAnnoAt doc i then skipBlankAnnoFuel doc fuel (i + 1) else i

/-- First line at or after `fromLine` that is not blank/annotation (or
`doc.length`). -/
def skipBlankAnnoDown (doc : List String) (fromLine : Nat) : Nat :=
  skipBlankAnnoFuel doc (doc.length - fromLine) fromLine

/-- The per-line step shared by the locator loops. -/
def kindHit (doc : List String) (i : Nat) : Option (ApexKind × Nat) :=
  match apexKindAtLine doc i with
  | some k => some (k, i)
  | none => none

/-- `findNextDeclDown(doc, fromLine)`: skip the blank/annotation run,
then scan the grammar downward for at most 200 further lines. -/
def findNextDeclDown (doc : List String) (fromLine : Nat) : Option (ApexKind × Nat) :=
  let i := skipBlankAnnoDown doc fromLine
  scanDownFuel (kindHit doc) (min (doc.length - 1) (i + 200) + 1 - i) i

/-- The annotation-context condition of `detectApexKindAndLine`. -/
def inAnnotationContext (doc : List String) (fromLine : Nat) : Bool :=
  isAnnotationLine (lineAt doc fromLine) || isInsideAnnotationRun doc fromLine

/-- `detectApexKindAndLine(doc, fromLine)`: annotation redirect first,
then the upward scan over `[fromLine-200, fromLine]`, then the downward
scan over `[fromLine+1, min(lineCount-1, fromLine+200)]`. -/
def detectApexKindAndLine (doc : List String) (fromLine : Nat) : Option (ApexKind × Nat) :=
  match (if inAnnotationContext doc fromLine then findNextDeclDown doc fromLine else none) with
  | some hit => some hit
  | none =>
    match scanUpF (kindHit doc) (fromLine - 200) fromLine with
    | some r => some r
    | none =>
      scanDownFuel (kindHit doc) (min (doc.length - 1) (fromLine + 200) - fromLine) (fromLine + 1)

/-! ## Annotation-block top finder (ApexHelpers.ts) -/

def isBlankAt (doc : List String) (j : Nat) : Bool :=
  (trimChars (lineChars doc j)).isEmpty

def isAnnoAt (doc : List String) (j : Nat) : Bool :=
  startsWithAt (trimChars (lineChars doc j))

/-- First `while` of `findTopOfAnnotationBlock`: skip blank lines
upward.  The argument and result are shifted by one (`n` stands for
cursor `i = n - 1`; `0` stands for `i = -1`), so the final
`Math.max(0, i + 1)` is the returned value itself. -/
def skipBlankUp (doc : List String) : Nat → Nat
  | 0 => 0
  | n + 1 => if isBlankAt doc n then skipBlankUp doc n else n + 1

/-- Second `while`: skip a contiguous run of `@`-lines upward (same
shifted representation). -/
def skipAnnoUp (doc : List String) : Nat → Nat
  | 0 => 0
  | n + 1 => if isAnnoAt doc n then skipAnnoUp doc n else n + 1

/-- `findTopOfAnnotationBlock(doc, declLine)`. -/
def findTopOfAnnotationBlock (doc : List String) (declLine : Nat) : Nat :=
  skipAnnoUp doc (skipBlankUp doc declLine)

/-! ## Comment-block membership (SharedHelpers.ts `insideDocBlock`) -/

def openMark : List Char := "/**".data

def closeMark : List Char := "*/".data

/-- `/^\s*\*/.test(text)`: optional whitespace then `*`. -/
def contStar (t : List Char) : Bool :=
  match t.dropWhile isJsWs with
  | '*' :: _ => true
  | _ => false

/-- `/^\s*\/?\*/.test(t)`: optional whitespace, optional `/`, then `*`
(the "still comment-shaped" test of the upward walk). -/
def contSlashStar (t : List Char) : Bool :=
  match t.dropWhile isJsWs with
  | '*' :: _ => true
  | '/' :: '*' :: _ => true
  | _ => false

/-- The upward walk of `insideDocBlock`, from `i` down to `stop`:
`*/` ⇒ false, `/**` ⇒ true, a non-blank non-comment-shaped line ⇒ false,
window exhausted ⇒ false. -/
def docBlockScan (doc : List String) (stop : Nat) : Nat → Bool
  | 0 =>
    let t := lineChars doc 0
    if hasSub closeMark t then false
    else if hasSub openMark t then true
    else false
  | i + 1 =>
    let t := lineChars doc (i + 1)
    if hasSub closeMark t then false
    else if hasSub openMark t then true
    else if !(trimChars t).isEmpty && !contSlashStar t then false
    else if stop < i + 1 then docBlockScan doc stop i
    else false

/-- `insideDocBlock(doc, line)` (SharedHelpers.ts): fast paths for a
line containing `/**` or starting (after whitespace) with `*`, then an
80-line upward walk. -/
def insideDocBlock (doc : List String) (line : Nat) : Bool :=
  let text := lineChars doc line
  if hasSub openMark text then true
  else if contStar text then true
  else docBlockScan doc (line - 80) line

/-! ## Signature reassembly (`locateApexSignatureStart`, `getApexParams`) -/

/-- The per-kind start-line predicate of `locateApexSignatureStart`. -/
def sigStartPred (doc : List String) (cn? : Option (List Char)) (kind : MCKind)
    (i : Nat) : Bool :=
  let t := stripLineComments (lineChars doc i)
  match kind with
  | MCKind.ctor =>
    match cn? with
    | some cn => ctorTest cn t
    | none => false
  | MCKind.method => methodTest t

/-- `locateApexSignatureStart(doc, declLine, kind)`: 50 lines up
(inclusive), then 50 lines down; `none` for the source's `-1`. -/
def locateApexSignatureStart (doc : List String) (declLine : Nat) (kind : MCKind) :
    Option Nat :=
  let cn? := findEnclosingClassName doc declLine
  let f : Nat → Option Nat := fun i => if sigStartPred doc cn? kind i then some i else none
  match scanUpF f (declLine - 50) declLine with
  | some i => some i
  | none =>
    scanDownFuel f (min (doc.length - 1) (declLine + 50) - declLine) (declLine + 1)

/-- The accumulation loop of `getApexParams`: concatenate
comment-stripped lines (each with a trailing space) until the
accumulated text contains `(` and the current line matches
`/\)\s*[{;]/`; `none` when the `fuel` (the window `[start, maxI]`) is
exhausted without a clean close. -/
def accumSigFuel (doc : List String) : Nat → Nat → List Char → Option (List Char)
  | 0, _, _ => none
  | fuel + 1, i, sg =>
    let lineText := stripLineComments (lineChars doc i)
    let sg' := sg ++ lineText ++ [' ']
    if sg'.contains '(' && closeThenBody lineText then some sg'
    else accumSigFuel doc fuel (i + 1) sg'

/-- The extraction pipeline applied to the text between the
parentheses: split on commas, trim, drop empties, take each segment's
cleaned last token, drop empties. -/
def namesOfBlob (blob : List Char) : List String :=
  (((((splitOnComma blob).map trimChars).filter
      (fun t => !t.isEmpty)).map lastNameClean).filter
      (fun t => !t.isEmpty)).map (fun cs => String.mk cs)

/-- The reassembled signature text of `getApexParams` (its first two
stages: `-1` start check, then the bounded accumulation over
`[start, min(lineCount-1, start+50)]`). -/
def sigOfDecl (doc : List String) (declLine : Nat) (kind : MCKind) : Option (List Char) :=
  match locateApexSignatureStart doc declLine kind with
  | none => none
  | some start =>
    accumSigFuel doc (min (doc.length - 1) (start + 50) + 1 - start) start []

/-- `getApexParams(doc, declLine, kind)` (`trimChars cap` is the
source's `blob`). -/
def getApexParams (doc : List String) (declLine : Nat) (kind : MCKind) : List String :=
  match sigOfDecl doc declLine kind with
  | none => []
  | some sg =>
    match firstParenCapture sg with
    | none => []
    | some cap =>
      if (trimChars cap).isEmpty then [] else namesOfBlob (trimChars cap)

/-- The comma-separated segments of the signature, mapped through the
name-extraction step but with no filtering: the raw left-to-right
sequence the parameter list is carved from (guards as in
`getApexParams`). -/
def rawNames (doc : List String) (declLine : Nat) (kind : MCKind) : List String :=
  match sigOfDecl doc declLine kind with
  | none => []
  | some sg =>
    match firstParenCapture sg with
    | none => []
    | some cap =>
      if (trimChars cap).isEmpty then []
      else (splitOnComma (trimChars cap)).map
        (fun seg => String.mk (lastNameClean (trimChars seg)))

/-! ## Template patch engine (`replaceOrInjectApexParams`) -/

/-- `line.trim().startsWith("* @param")`. -/
def isParamLine (l : String) : Bool := "* @param".data.isPrefixOf (trimChars l.data)

/-- `line.trim().startsWith("* @description")`. -/
def isDescLine (l : String) : Bool := "* @description".data.isPrefixOf (trimChars l.data)

/-- First pass of `replaceOrInjectApexParams`: replace the first
parameter-marker line by `generated`, drop the later ones. -/
def replaceLoop (generated : List String) : Bool → List String → List String
  | _, [] => []
  | replaced, l :: rest =>
    if isParamLine l then
      if replaced then replaceLoop generated true rest
      else generated ++ replaceLoop generated true rest
    else l :: replaceLoop generated replaced rest

/-- Second pass: inject `generated` after the first description-marker
line. -/
def injectLoop (generated : List String) : Bool → List String → List String
  | _, [] => []
  | didInject, l :: rest =>
    if !didInject && isDescLine l then l :: (generated ++ injectLoop generated true rest)
    else l :: injectLoop generated didInject rest

/-- `replaceOrInjectApexParams(lines, generated)` (the loop's `replaced`
flag ends up true exactly when some line is a parameter marker). -/
def replaceOrInjectApexParams (lines generated : List String) : List String :=
  let out := replaceLoop generated false lines
  if lines.any (fun l => isParamLine l) then out else injectLoop generated false out

/-! ## Spec-side formulations (compared against the source functions) -/

/-- The ordered rule table of the declaration grammar, as §4.2 of the
specification presents it. -/
def apexRuleTable : List ((List String → Nat → Bool) × ApexKind) :=
  [(enumRule, ApexKind.enumValue), (ctorRule, ApexKind.ctor),
   (methodRule, ApexKind.method), (classRule, ApexKind.cls),
   (propertyRule, ApexKind.property)]

/-- First-match-wins dispatch over a rule table. -/
def firstRuleMatch (table : List ((List String → Nat → Bool) × ApexKind))
    (doc : List String) (line : Nat) : Option ApexKind :=
  table.findSome? (fun pk => if pk.1 doc line then some pk.2 else none)

/-- The descending index list `[i, i-1, …, stop]` (with `0` always
included last, as the loops run down to `max(0, stop)`). -/
def descIdx (stop : Nat) : Nat → List Nat
  | 0 => [0]
  | i + 1 => (i + 1) :: (if stop < i + 1 then descIdx stop i else [])

/-- A line the `insideDocBlock` walk acts on: it carries a marker or is
real code (non-blank, not comment-shaped). -/
def significantAt (doc : List String) (j : Nat) : Bool :=
  let t := lineChars doc j
  hasSub closeMark t || hasSub openMark t ||
    (!(trimChars t).isEmpty && !contSlashStar t)

/-- Verdict at a significant line: inside iff it has the opening marker
and no closing marker (`*/` is checked first by the walk). -/
def markerVerdict (doc : List String) (j : Nat) : Bool :=
  !hasSub closeMark (lineChars doc j) && hasSub openMark (lineChars doc j)

/-- Spec-side reading of the upward walk: find the first significant
line in the window and let it decide; no significant line means not
inside. -/
def docBlockSpec (doc : List String) (line : Nat) : Bool :=
  match (descIdx (line - 80) line).find? (fun j => significantAt doc j) with
  | some j => markerVerdict doc j
  | none => false

/-- The accumulated signature text over the line window `[i, i+fuel)`:
comment-stripped lines, each with a trailing space. -/
def segSigFuel (doc : List String) : Nat → Nat → List Char
  | 0, _ => []
  | fuel + 1, i => stripLineComments (lineChars doc i) ++ ' ' :: segSigFuel doc fuel (i + 1)

/-- The accumulated signature text over `[start, j]`. -/
def segSig (doc : List String) (start j : Nat) : List Char :=
  segSigFuel doc (j + 1 - start) start

/-! ## Lemmas about the bounded scanners -/

theorem scanUpF_spec {α : Type} (f : Nat → Option α) (stop : Nat) :
    ∀ i b, scanUpF f stop i = some b →
      ∃ j, j ≤ i ∧ f j = some b ∧ ∀ l, j < l → l ≤ i → f l = none := by
  intro i
  induction i with
  | zero =>
    intro b h
    refine ⟨0, Nat.le_refl 0, h, ?_⟩
    intro l hl1 hl2
    exact absurd (Nat.lt_of_lt_of_le hl1 hl2) (Nat.lt_irrefl 0)
  | succ i ih =>
    intro b h
    simp only [scanUpF] at h
    cases hf : f (i + 1) with
    | some a =>
      rw [hf] at h
      refine ⟨i + 1, Nat.le_refl _, ?_, ?_⟩
      · rw [hf]; exact h
      · intro l hl1 hl2
        exact absurd (Nat.lt_of_lt_of_le hl1 hl2) (Nat.lt_irrefl _)
    | none =>
      rw [hf] at h
      by_cases hs : stop < i + 1
      · rw [if_pos hs] at h
        obtain ⟨j, hj1, hj2, hj3⟩ := ih b h
        refine ⟨j, Nat.le_succ_of_le hj1, hj2, ?_⟩
        intro l hl1 hl2
        rcases Nat.lt_or_ge l (i + 1) with hlt | hge
        · exact hj3 l hl1 (Nat.lt_succ_iff.mp hlt)
        · have hle : l = i + 1 := Nat.le_antisymm hl2 hge
          rw [hle]; exact hf
      · rw [if_neg hs] at h
        exact absurd h (by simp)

theorem scanUpF_isSome {α : Type} (f : Nat → Option α) (stop : Nat) :
    ∀ i j, j ≤ i → stop ≤ j → f j ≠ none → ∃ b, scanUpF f stop i = some b := by
  intro i
  induction i with
  | zero =>
    intro j hj _ hf
    have hj0 : j = 0 := Nat.le_zero.mp hj
    subst hj0
    cases hfj : f 0 with
    | none => exact absurd hfj hf
    | some a => exact ⟨a, by simp only [scanUpF]; exact hfj⟩
  | succ i ih =>
    intro j hj hstop hf
    cases hfi : f (i + 1) with
    | some a => exact ⟨a, by simp only [scanUpF, hfi]⟩
    | none =>
      have hj' : j ≤ i := by
        rcases Nat.lt_or_ge j (i + 1) with h | h
        · exact Nat.lt_succ_iff.mp h
        · exfalso
          have : j = i + 1 := Nat.le_antisymm hj h
          rw [this] at hf
          exact hf hfi
      have hs : stop < i + 1 := Nat.lt_succ_of_le (Nat.le_trans hstop hj')
      obtain ⟨b, hb⟩ := ih j hj' hstop hf
      exact ⟨b, by simp only [scanUpF, hfi, if_pos hs]; exact hb⟩

theorem scanDownFuel_spec {α : Type} (f : Nat → Option α) :
    ∀ fuel i b, scanDownFuel f fuel i = some b →
      ∃ k, k < fuel ∧ f (i + k) = some b ∧ ∀ l, l < k → f (i + l) = none := by
  intro fuel
  induction fuel with
  | zero => intro i b h; simp [scanDownFuel] at h
  | succ fuel ih =>
    intro i b h
    simp only [scanDownFuel] at h
    cases hf : f i with
    | some a =>
      rw [hf] at h
      refine ⟨0, Nat.succ_pos _, ?_, ?_⟩
      · rw [Nat.add_zero, hf]; exact h
      · intro l hl; exact absurd hl (Nat.not_lt_zero l)
    | none =>
      rw [hf] at h
      obtain ⟨k, hk1, hk2, hk3⟩ := ih (i + 1) b h
      refine ⟨k + 1, Nat.succ_lt_succ hk1, ?_, ?_⟩
      · rw [show i + (k + 1) = (i + 1) + k by omega]; exact hk2
      · intro l hl
        cases l with
        | zero => rw [Nat.add_zero]; exact hf
        | succ l =>
          rw [show i + (l + 1) = (i + 1) + l by omega]
          exact hk3 l (Nat.lt_of_succ_lt_succ hl)

/-! ## Lemmas about the skip loops -/

theorem skipBlankAnnoFuel_le (doc : List String) :
    ∀ fuel i, i ≤ skipBlankAnnoFuel doc fuel i := by
  intro fuel
  induction fuel with
  | zero => intro i; exact Nat.le_refl i
  | succ fuel ih =>
    intro i
    cases hc : (decide (i < doc.length) && blankAnnoAt doc i) with
    | true =>
      have : skipBlankAnnoFuel doc (fuel + 1) i = skipBlankAnnoFuel doc fuel (i + 1) := by
        simp [skipBlankAnnoFuel, hc]
      rw [this]
      exact Nat.le_trans (Nat.le_succ i) (ih (i + 1))
    | false =>
      have : skipBlankAnnoFuel doc (fuel + 1) i = i := by
        simp [skipBlankAnnoFuel, hc]
      rw [this]

theorem skipBlankAnnoFuel_mid (doc : List String) :
    ∀ fuel i j, i ≤ j → j < skipBlankAnnoFuel doc fuel i →
      j < doc.length ∧ blankAnnoAt doc j = true := by
  intro fuel
  induction fuel with
  | zero =>
    intro i j hij hj
    simp only [skipBlankAnnoFuel] at hj
    omega
  | succ fuel ih =>
    intro i j hij hj
    cases hc : (decide (i < doc.length) && blankAnnoAt doc i) with
    | true =>
      rw [show skipBlankAnnoFuel doc (fuel + 1) i = skipBlankAnnoFuel doc fuel (i + 1) by
        simp [skipBlankAnnoFuel, hc]] at hj
      rcases Nat.eq_or_lt_of_le hij with heq | hlt
      · simp only [Bool.and_eq_true, decide_eq_true_eq] at hc
        rw [← heq]; exact hc
      · exact ih (i + 1) j hlt hj
    | false =>
      rw [show skipBlankAnnoFuel doc (fuel + 1) i = i by
        simp [skipBlankAnnoFuel, hc]] at hj
      omega

theorem skipBlankAnnoFuel_stop (doc : List String) :
    ∀ fuel i, doc.length ≤ fuel + i →
      doc.length ≤ skipBlankAnnoFuel doc fuel i ∨
      blankAnnoAt doc (skipBlankAnnoFuel doc fuel i) = false := by
  intro fuel
  induction fuel with
  | zero => intro i h; left; simpa [skipBlankAnnoFuel] using h
  | succ fuel ih =>
    intro i h
    cases hc : (decide (i < doc.length) && blankAnnoAt doc i) with
    | true =>
      rw [show skipBlankAnnoFuel doc (fuel + 1) i = skipBlankAnnoFuel doc fuel (i + 1) by
        simp [skipBlankAnnoFuel, hc]]
      exact ih (i + 1) (by omega)
    | false =>
      rw [show skipBlankAnnoFuel doc (fuel + 1) i = i by
        simp [skipBlankAnnoFuel, hc]]
      rcases Nat.lt_or_ge i doc.length with hlt | hge
      · right
        cases hb : blankAnnoAt doc i with
        | false => rfl
        | true =>
          exfalso
          rw [hb] at hc
          simp [hlt] at hc
      · left; exact hge

/-! ## Lemmas about the upward skip loops of the top finder -/

theorem skipBlankUp_le (doc : List String) : ∀ n, skipBlankUp doc n ≤ n := by
  intro n
  induction n with
  | zero => exact Nat.le_refl 0
  | succ n ih =>
    simp only [skipBlankUp]
    by_cases h : isBlankAt doc n = true
    · rw [if_pos h]; exact Nat.le_succ_of_le ih
    · rw [if_neg h]

theorem skipBlankUp_blank (doc : List String) :
    ∀ n j, skipBlankUp doc n ≤ j → j < n → isBlankAt doc j = true := by
  intro n
  induction n with
  | zero => intro j _ hj; exact absurd hj (Nat.not_lt_zero j)
  | succ n ih =>
    intro j h1 h2
    simp only [skipBlankUp] at h1
    by_cases h : isBlankAt doc n = true
    · rw [if_pos h] at h1
      rcases Nat.lt_or_ge j n with hlt | hge
      · exact ih j h1 hlt
      · have : j = n := Nat.le_antisymm (Nat.lt_succ_iff.mp h2) hge
        rw [this]; exact h
    · rw [if_neg h] at h1
      exact absurd (Nat.lt_of_le_of_lt h1 h2) (Nat.lt_irrefl _)

theorem skipBlankUp_stop (doc : List String) :
    ∀ n, skipBlankUp doc n = 0 ∨ isBlankAt doc (skipBlankUp doc n - 1) = false := by
  intro n
  induction n with
  | zero => left; rfl
  | succ n ih =>
    simp only [skipBlankUp]
    by_cases h : isBlankAt doc n = true
    · rw [if_pos h]; exact ih
    · rw [if_neg h]
      right
      simp only [Nat.add_sub_cancel]
      exact Bool.eq_false_iff.mpr h

theorem skipAnnoUp_le (doc : List String) : ∀ n, skipAnnoUp doc n ≤ n := by
  intro n
  induction n with
  | zero => exact Nat.le_refl 0
  | succ n ih =>
    simp only [skipAnnoUp]
    by_cases h : isAnnoAt doc n = true
    · rw [if_pos h]; exact Nat.le_succ_of_le ih
    · rw [if_neg h]

theorem skipAnnoUp_anno (doc : List String) :
    ∀ n j, skipAnnoUp doc n ≤ j → j < n → isAnnoAt doc j = true := by
  intro n
  induction n with
  | zero => intro j _ hj; exact absurd hj (Nat.not_lt_zero j)
  | succ n ih =>
    intro j h1 h2
    simp only [skipAnnoUp] at h1
    by_cases h : isAnnoAt doc n = true
    · rw [if_pos h] at h1
      rcases Nat.lt_or_ge j n with hlt | hge
      · exact ih j h1 hlt
      · have : j = n := Nat.le_antisymm (Nat.lt_succ_iff.mp h2) hge
        rw [this]; exact h
    · rw [if_neg h] at h1
      exact absurd (Nat.lt_of_le_of_lt h1 h2) (Nat.lt_irrefl _)

theorem skipAnnoUp_stop (doc : List String) :
    ∀ n, skipAnnoUp doc n = 0 ∨ isAnnoAt doc (skipAnnoUp doc n - 1) = false := by
  intro n
  induction n with
  | zero => left; rfl
  | succ n ih =>
    simp only [skipAnnoUp]
    by_cases h : isAnnoAt doc n = true
    · rw [if_pos h]; exact ih
    · rw [if_neg h]
      right
      simp only [Nat.add_sub_cancel]
      exact Bool.eq_false_iff.mpr h

/-! ## Lemmas about the template patch loops -/

theorem replaceLoop_replaced (generated : List String) :
    ∀ ls, replaceLoop generated true ls = ls.filter (fun l => !isParamLine l) := by
  intro ls
  induction ls with
  | nil => rfl
  | cons l rest ih =>
    simp only [replaceLoop, List.filter]
    cases h : isParamLine l with
    | true => simp [h, ih]
    | false => simp [h, ih]

theorem replaceLoop_id (generated : List String) :
    ∀ ls, (∀ l ∈ ls, isParamLine l = false) → replaceLoop generated false ls = ls := by
  intro ls
  induction ls with
  | nil => intro _; rfl
  | cons l rest ih =>
    intro h
    have hl : isParamLine l = false := h l (List.mem_cons_self l rest)
    simp only [replaceLoop, hl]
    simp only [Bool.false_eq_true, if_false]
    rw [ih (fun x hx => h x (List.mem_cons_of_mem l hx))]

theorem injectLoop_done (generated : List String) :
    ∀ ls, injectLoop generated true ls = ls := by
  intro ls
  induction ls with
  | nil => rfl
  | cons l rest ih => simp [injectLoop, ih]

theorem replaceLoop_split (generated : List String) :
    ∀ pre p post, (∀ l ∈ pre, isParamLine l = false) → isParamLine p = true →
      replaceLoop generated false (pre ++ p :: post) =
        pre ++ (generated ++ post.filter (fun l => !isParamLine l)) := by
  intro pre
  induction pre with
  | nil =>
    intro p post _ hp
    simp [replaceLoop, hp, replaceLoop_replaced]
  | cons l pre ih =>
    intro p post hpre hp
    have hl : isParamLine l = false := hpre l (List.mem_cons_self l pre)
    simp only [List.cons_append, replaceLoop, hl]
    simp only [Bool.false_eq_true, if_false]
    have hrw : pre.append (p :: post) = pre ++ p :: post := rfl
    rw [hrw, ih p post (fun x hx => hpre x (List.mem_cons_of_mem l hx)) hp]

theorem injectLoop_split (generated : List String) :
    ∀ pre d post, (∀ l ∈ pre, isDescLine l = false) → isDescLine d = true →
      injectLoop generated false (pre ++ d :: post) = pre ++ d :: (generated ++ post) := by
  intro pre
  induction pre with
  | nil =>
    intro d post _ hd
    simp only [List.nil_append, injectLoop, hd, Bool.not_false, Bool.true_and, if_true]
    rw [injectLoop_done]
  | cons l pre ih =>
    intro d post hpre hd
    have hl : isDescLine l = false := hpre l (List.mem_cons_self l pre)
    simp only [List.cons_append, injectLoop, hl]
    simp only [Bool.not_false, Bool.true_and, Bool.and_false, Bool.false_eq_true, if_false]
    have hrw : pre.append (d :: post) = pre ++ d :: post := rfl
    rw [hrw, ih d post (fun x hx => hpre x (List.mem_cons_of_mem l hx)) hd]

/-! ## Lemmas about the signature accumulation -/

theorem segSig_self (doc : List String) (i : Nat) :
    segSig doc i i = stripLineComments (lineChars doc i) ++ [' '] := by
  simp only [segSig]
  rw [show i + 1 - i = 1 by omega]
  simp [segSigFuel]

theorem segSig_cons (doc : List String) (i j : Nat) (hij : i ≤ j) :
    segSig doc i j =
      stripLineComments (lineChars doc i) ++ ' ' :: segSig doc (i + 1) j := by
  simp only [segSig]
  rw [show j + 1 - i = (j - i) + 1 by omega]
  simp only [segSigFuel]
  rw [show j + 1 - (i + 1) = j - i by omega]

theorem accumSigFuel_none (doc : List String) :
    ∀ fuel i sg,
      (∀ j, i ≤ j → j < i + fuel →
        ¬((sg ++ segSig doc i j).contains '(' = true ∧
          closeThenBody (stripLineComments (lineChars doc j)) = true)) →
      accumSigFuel doc fuel i sg = none := by
  intro fuel
  induction fuel with
  | zero => intro i sg _; rfl
  | succ fuel ih =>
    intro i sg h
    have hcond := h i (Nat.le_refl i) (by omega)
    rw [segSig_self] at hcond
    simp only [accumSigFuel]
    have hsg : sg ++ stripLineComments (lineChars doc i) ++ [' '] =
        sg ++ (stripLineComments (lineChars doc i) ++ [' ']) := by
      rw [List.append_assoc]
    cases hc : ((sg ++ stripLineComments (lineChars doc i) ++ [' ']).contains '(' &&
        closeThenBody (stripLineComments (lineChars doc i))) with
    | true =>
      exfalso
      simp only [Bool.and_eq_true] at hc
      rw [hsg] at hc
      exact hcond hc
    | false =>
      simp only [hc, Bool.false_eq_true, if_false]
      apply ih
      intro j hj1 hj2
      have hij : i ≤ j := by omega
      have hmain := h j hij (by omega)
      rw [segSig_cons doc i j hij] at hmain
      intro hcontra
      apply hmain
      refine ⟨?_, hcontra.2⟩
      have heq : sg ++ stripLineComments (lineChars doc i) ++ [' '] ++ segSig doc (i + 1) j =
          sg ++ (stripLineComments (lineChars doc i) ++ ' ' :: segSig doc (i + 1) j) := by
        rw [List.append_assoc, List.append_assoc]
        rfl
      rw [← heq]
      exact hcontra.1

/-! ## Equivalence of the comment-block walk with its find-first reading -/

theorem docBlockScan_eq_spec (doc : List String) (stop : Nat) :
    ∀ i, docBlockScan doc stop i =
      (match (descIdx stop i).find? (fun j => significantAt doc j) with
       | some j => markerVerdict doc j
       | none => false) := by
  intro i
  induction i with
  | zero =>
    simp only [descIdx, List.find?]
    cases hc : hasSub closeMark (lineChars doc 0) with
    | true => simp [docBlockScan, significantAt, markerVerdict, hc]
    | false =>
      cases ho : hasSub openMark (lineChars doc 0) with
      | true => simp [docBlockScan, significantAt, markerVerdict, hc, ho]
      | false =>
        cases hcode : (!(trimChars (lineChars doc 0)).isEmpty &&
            !contSlashStar (lineChars doc 0)) with
        | true => simp [docBlockScan, significantAt, markerVerdict, hc, ho, hcode]
        | false => simp [docBlockScan, significantAt, markerVerdict, hc, ho, hcode]
  | succ i ih =>
    simp only [descIdx, List.find?]
    cases hc : hasSub closeMark (lineChars doc (i + 1)) with
    | true => simp [docBlockScan, significantAt, markerVerdict, hc]
    | false =>
      cases ho : hasSub openMark (lineChars doc (i + 1)) with
      | true => simp [docBlockScan, significantAt, markerVerdict, hc, ho]
      | false =>
        cases hcode : (!(trimChars (lineChars doc (i + 1))).isEmpty &&
            !contSlashStar (lineChars doc (i + 1))) with
        | true => simp [docBlockScan, significantAt, markerVerdict, hc, ho, hcode]
        | false =>
          by_cases hs : stop < i + 1
          · simp only [docBlockScan, hc, ho, hcode, significantAt,
              Bool.false_eq_true, if_false, if_pos hs]
            simpa [significantAt, hc, ho, hcode] using ih
          · simp [docBlockScan, significantAt, hc, ho, hcode, hs]

/-! ## Concrete documents used by the claims -/

/-- A focus line strictly between a class declaration above and a
method declaration below, separated from the latter by an annotation. -/
def exDocRedirect : List String :=
  ["public class Foo", "", "@AuraEnabled", "public static Integer bar()"]

/-- A focus line strictly between two declarations, with no annotation
context. -/
def exDocUpward : List String :=
  ["public class Foo", "", "public static Integer bar()"]

/-- A declaration preceded by two annotation lines, a blank line and
unrelated code. -/
def exDocTop : List String := ["int x;", "", "@A", "@B", "void m()"]

/-- A declaration preceded by one annotation line, a blank line and
unrelated code (the walk stops at the blank line above the run). -/
def exDocTopBlank : List String := ["int x;", "", "@A", "void m()"]

/-- A code line directly under an opening block-comment marker. -/
def exDocComment : List String := ["/**", " x"]

/-- A constructor line (also matching the method pattern) inside a
class. -/
def exDocCtor : List String := ["public class Foo", "public Foo(Integer a)"]

/-- A single-line signature with no body-open or terminator token after
the closing parenthesis. -/
def exDocOneLine : List String := ["void foo(Integer a, String b)"]

/-- The same signature reaching a clean close (`… ) {`). -/
def exDocOneLineBrace : List String := ["void foo(Integer a, String b) \x7b"]

/-- An empty parameter list. -/
def exDocEmptyParams : List String := ["void foo()"]

/-- A signature split across two lines, the second reaching `… ) {`. -/
def exDocTwoLine : List String := ["void foo(Integer a,", "String b) \x7b"]

/-- A signature with a duplicated parameter name. -/
def exDocDup : List String := ["void foo(Integer a, String a) \x7b"]

/-- A signature whose accumulation never reaches a clean close. -/
def exDocOpenOnly : List String := ["void foo(Integer a,"]

/-- A template with a description line and two parameter placeholder
lines. -/
def exTemplate : List String :=
  ["/**", " * @description d", " * @param old x", " * @param old y", " */"]

/-- A generated parameter block. -/
def exGenerated : List String := ["* @param a description"]

/-! ## Claim C10 -/

/-- Claim C10: for every document and declaration line within it, the
insertion line computed by `findTopOfAnnotationBlock` lies in the
closed interval `[0, declLine]` — a generated comment is always
inserted at or above the declaration. -/
theorem claim_C10 (doc : List String) (declLine : Nat) (h : declLine < doc.length) :
    0 ≤ findTopOfAnnotationBlock doc declLine ∧
    findTopOfAnnotationBlock doc declLine ≤ declLine := by
  refine ⟨Nat.zero_le _, ?_⟩
  exact Nat.le_trans (skipAnnoUp_le doc (skipBlankUp doc declLine)) (skipBlankUp_le doc declLine)

/-- Witness for C10 at a concrete one-line document. -/
theorem claim_C10_witness :
    0 ≤ findTopOfAnnotationBlock ["void m()"] 0 ∧
    findTopOfAnnotationBlock ["void m()"] 0 ≤ 0 :=
  claim_C10 ["void m()"] 0 (by decide)

/-! ## Claim C5 -/

/-- Counterexample to claim C5 as stated: in `exDocTopBlank` with the
declaration at line 3, the first line above that is neither blank nor
annotation-marked is line 0 (line 1 is blank, line 2 is an annotation),
so "one past that line" is 1; but `findTopOfAnnotationBlock` returns 2:
its second phase stops at the blank line 1 sitting above the annotation
run and never skips it. -/
theorem claim_C5_counterexample :
    findTopOfAnnotationBlock exDocTopBlank 3 = 2 ∧
    isBlankAt exDocTopBlank 0 = false ∧ isAnnoAt exDocTopBlank 0 = false ∧
    isBlankAt exDocTopBlank 1 = true ∧ isAnnoAt exDocTopBlank 2 = true := by
  decide

/-- Claim C5 (amended): `findTopOfAnnotationBlock` walks upward from
`declLine - 1`, first skipping blank lines, then skipping a contiguous
run of lines whose trimmed text starts with `@`, and returns one past
the line where this walk stops (clamped to 0); the stopping line is not
blank if the annotation phase never moved, and otherwise is merely not
annotation-marked (it may be a blank line above the run).  In
particular, for a declaration preceded by two annotation lines, then a
blank line, then unrelated code, it returns the index of the first
annotation line. -/
theorem claim_C5_amended (doc : List String) (declLine : Nat) :
    skipBlankUp doc declLine ≤ declLine ∧
    (∀ j, skipBlankUp doc declLine ≤ j → j < declLine → isBlankAt doc j = true) ∧
    (skipBlankUp doc declLine = 0 ∨ isBlankAt doc (skipBlankUp doc declLine - 1) = false) ∧
    findTopOfAnnotationBlock doc declLine ≤ skipBlankUp doc declLine ∧
    (∀ j, findTopOfAnnotationBlock doc declLine ≤ j → j < skipBlankUp doc declLine →
      isAnnoAt doc j = true) ∧
    (findTopOfAnnotationBlock doc declLine = 0 ∨
      isAnnoAt doc (findTopOfAnnotationBlock doc declLine - 1) = false) ∧
    findTopOfAnnotationBlock exDocTop 4 = 2 := by
  refine ⟨skipBlankUp_le doc declLine, skipBlankUp_blank doc declLine,
    skipBlankUp_stop doc declLine, skipAnnoUp_le doc (skipBlankUp doc declLine),
    skipAnnoUp_anno doc (skipBlankUp doc declLine),
    skipAnnoUp_stop doc (skipBlankUp doc declLine), by decide⟩

/-- Witness for the amended C5: extracting the annotation-run conjunct
at a concrete document and line. -/
theorem claim_C5_amended_witness : isAnnoAt exDocTop 3 = true :=
  (claim_C5_amended exDocTop 4).2.2.2.2.1 3 (by decide) (by decide)

/-! ## Claim C6 -/

/-- Counterexample to claim C6 as stated: line 1 of `exDocComment` sits
directly under an opening block marker with no intervening closing
marker, and its own text is neither an opening nor a continuation
comment line; the claim demands `true`, but `insideDocBlock`
(SharedHelpers.ts) returns `false`, because the upward walk stops at
the focus line itself — a non-blank line that is not comment-shaped —
before ever seeing the opening marker. -/
theorem claim_C6_counterexample :
    insideDocBlock exDocComment 1 = false ∧
    hasSub openMark (lineChars exDocComment 0) = true ∧
    hasSub closeMark (lineChars exDocComment 0) = false ∧
    hasSub closeMark (lineChars exDocComment 1) = false ∧
    hasSub openMark (lineChars exDocComment 1) = false ∧
    contStar (lineChars exDocComment 1) = false := by
  decide

/-- Claim C6 (amended): for a line that neither contains the opening
marker nor starts (after whitespace) with `*`, `insideDocBlock`
(SharedHelpers.ts) scans upward within its 80-line window and is
decided by the first *significant* line it meets: `false` when that
line carries the closing marker, `true` when it carries the opening
marker (and no closing marker), and `false` when it is real code — a
non-blank line not starting with `*` or `/*` — or when the window is
exhausted with no significant line.  In particular a blank line
directly under an opening marker is inside, and a line under a closing
marker is not. -/
theorem claim_C6_amended (doc : List String) (line : Nat)
    (h1 : hasSub openMark (lineChars doc line) = false)
    (h2 : contStar (lineChars doc line) = false) :
    insideDocBlock doc line = docBlockSpec doc line ∧
    insideDocBlock ["/**", ""] 1 = true ∧
    insideDocBlock ["/**", "*/", ""] 2 = false := by
  refine ⟨?_, by decide, by decide⟩
  simp only [insideDocBlock, h1, h2, Bool.false_eq_true, if_false]
  rw [docBlockScan_eq_spec doc (line - 80) line]
  rfl

/-- Witness for the amended C6 at a concrete document whose focus line
is real code. -/
theorem claim_C6_amended_witness :
    insideDocBlock ["/**", "", " y"] 2 = docBlockSpec ["/**", "", " y"] 2 :=
  (claim_C6_amended ["/**", "", " y"] 2 (by decide) (by decide)).1

/-! ## Claim C8 -/

/-- Claim C8: for every template and non-empty generated block,
`replaceOrInjectApexParams` replaces the first parameter-marker line
with the generated sequence, drops all further parameter-marker lines
and keeps every other line; when no parameter-marker line exists it
instead inserts the generated sequence right after the first
description-marker line, keeping all lines. -/
theorem claim_C8 (lines generated : List String) (hgen : generated ≠ []) :
    (∀ pre p post, lines = pre ++ p :: post → (∀ l ∈ pre, isParamLine l = false) →
      isParamLine p = true →
      replaceOrInjectApexParams lines generated =
        pre ++ (generated ++ post.filter (fun l => !isParamLine l))) ∧
    ((∀ l ∈ lines, isParamLine l = false) →
      ∀ pre d post, lines = pre ++ d :: post → (∀ l ∈ pre, isDescLine l = false) →
        isDescLine d = true →
        replaceOrInjectApexParams lines generated = pre ++ d :: (generated ++ post)) := by
  constructor
  · intro pre p post hsplit hpre hp
    subst hsplit
    unfold replaceOrInjectApexParams
    have hany : (pre ++ p :: post).any (fun l => isParamLine l) = true := by
      simp only [List.any_append, List.any_cons, hp, Bool.true_or, Bool.or_true]
    rw [if_pos hany]
    exact replaceLoop_split generated pre p post hpre hp
  · intro hnone pre d post hsplit hpre hd
    unfold replaceOrInjectApexParams
    have hany : lines.any (fun l => isParamLine l) = false := by
      rw [List.any_eq_false]
      intro x hx
      simp [hnone x hx]
    rw [if_neg (by simp [hany])]
    rw [replaceLoop_id generated lines hnone, hsplit]
    exact injectLoop_split generated pre d post hpre hd

/-- Witness for C8: the first placeholder is replaced, the second
dropped, everything else kept. -/
theorem claim_C8_witness :
    replaceOrInjectApexParams exTemplate exGenerated =
      ["/**", " * @description d", "* @param a description", " */"] := by
  have h := (claim_C8 exTemplate exGenerated (by decide)).1
    ["/**", " * @description d"] " * @param old x" [" * @param old y", " */"]
    rfl (by decide) (by decide)
  rw [h]
  decide

/-! ## Claim C9 -/

/-- Counterexample to claim C9 as stated: the parameter names of
`void foo(Integer a, String a)` come out as `["a", "a"]` — duplicate
names are preserved, not filtered out. -/
theorem claim_C9_counterexample :
    getApexParams exDocDup 0 MCKind.method = ["a", "a"] ∧
    ¬ (getApexParams exDocDup 0 MCKind.method).Nodup := by
  decide

/-- The extraction pipeline is an order-preserving selection from the
raw per-segment names. -/
theorem namesOfBlob_sublist (blob : List Char) :
    (namesOfBlob blob).Sublist
      ((splitOnComma blob).map (fun seg => String.mk (lastNameClean (trimChars seg)))) := by
  unfold namesOfBlob
  have h1 : (((splitOnComma blob).map trimChars).filter (fun t => !t.isEmpty)).Sublist
      ((splitOnComma blob).map trimChars) := List.filter_sublist _
  have h2 := h1.map lastNameClean
  have h3 : (((((splitOnComma blob).map trimChars).filter (fun t => !t.isEmpty)).map
      lastNameClean).filter (fun t => !t.isEmpty)).Sublist
      ((((splitOnComma blob).map trimChars).filter (fun t => !t.isEmpty)).map lastNameClean) :=
    List.filter_sublist _
  have h4 := (h3.trans h2).map (fun cs => String.mk cs)
  simpa [List.map_map, Function.comp] using h4

/-- Claim C9 (amended): the parameter list is an order-preserving
sublist of the cleaned last-token names of the comma-separated
segments (so left-to-right segment order is preserved), and every
returned name is non-empty; duplicates are preserved as-is — see the
counterexample — and nothing else is validated. -/
theorem claim_C9_amended (doc : List String) (declLine : Nat) (kind : MCKind) :
    (getApexParams doc declLine kind).Sublist (rawNames doc declLine kind) ∧
    (∀ s, s ∈ getApexParams doc declLine kind → s ≠ "") := by
  cases hsig : sigOfDecl doc declLine kind with
  | none =>
    simp only [getApexParams, rawNames, hsig]
    exact ⟨List.Sublist.refl [], by intro s hs; simp at hs⟩
  | some sg =>
    cases hcap : firstParenCapture sg with
    | none =>
      simp only [getApexParams, rawNames, hsig, hcap]
      exact ⟨List.Sublist.refl [], by intro s hs; simp at hs⟩
    | some cap =>
      by_cases hb : (trimChars cap).isEmpty = true
      · simp only [getApexParams, rawNames, hsig, hcap, hb, if_true]
        exact ⟨List.Sublist.refl [], by intro s hs; simp at hs⟩
      · simp only [getApexParams, rawNames, hsig, hcap]
        rw [if_neg hb, if_neg hb]
        refine ⟨namesOfBlob_sublist (trimChars cap), ?_⟩
        intro s hs
        unfold namesOfBlob at hs
        simp only [List.mem_map, List.mem_filter] at hs
        obtain ⟨cs, ⟨_, hcs2⟩, rfl⟩ := hs
        intro hcontra
        have hnil : cs = [] := by
          have hdata := congrArg String.data hcontra
          simpa using hdata
        rw [hnil] at hcs2
        simp at hcs2

/-- Witness for the amended C9: extracting the non-emptiness conjunct
at a concrete signature. -/
theorem claim_C9_amended_witness :
    ("a" : String) ∈ getApexParams exDocDup 0 MCKind.method ∧ ("a" : String) ≠ "" :=
  ⟨by decide, (claim_C9_amended exDocDup 0 MCKind.method).2 "a" (by decide)⟩

/-! ## Claim C3 -/

/-- Claim C3: if the accumulation window `[start, min(lineCount-1,
start+50)]` contains no line whose comment-stripped text matches
"close-paren then body-open or terminator" while the text accumulated
up to it contains an opening parenthesis, then `getApexParams` returns
the empty list — it never returns a partial parameter list for a
signature that does not reach a clean close. -/
theorem claim_C3 (doc : List String) (declLine : Nat) (kind : MCKind) (start : Nat)
    (hstart : locateApexSignatureStart doc declLine kind = some start)
    (hno : ∀ j, start ≤ j → j ≤ min (doc.length - 1) (start + 50) →
      ¬((segSig doc start j).contains '(' = true ∧
        closeThenBody (stripLineComments (lineChars doc j)) = true)) :
    getApexParams doc declLine kind = [] := by
  have hsig : sigOfDecl doc declLine kind = none := by
    unfold sigOfDecl
    rw [hstart]
    apply accumSigFuel_none
    intro j hj1 hj2
    have hj3 : j ≤ min (doc.length - 1) (start + 50) := by omega
    have h := hno j hj1 hj3
    simpa using h
  unfold getApexParams
  rw [hsig]

/-- Witness for C3: a signature that opens a parenthesis but never
closes it yields no parameters. -/
theorem claim_C3_witness : getApexParams exDocOpenOnly 0 MCKind.method = [] := by
  apply claim_C3 exDocOpenOnly 0 MCKind.method 0 (by decide)
  intro j h1 h2
  have hj : j = 0 := by
    simp [exDocOpenOnly] at h2
    omega
  subst hj
  decide

/-! ## Claim C7 -/

/-- Claim C7: `apexKindAtLine` is exactly first-match-wins dispatch
over the ordered rule table (enum member, constructor, method,
class/interface/enum, property) evaluated on the comment-stripped line;
in particular a line matching both the constructor and the method
pattern (and not the earlier enum-member rule) is classified as a
constructor; it returns at most one kind, never fails, and yields
`none` exactly when no rule fires. -/
theorem claim_C7 (doc : List String) (line : Nat) :
    apexKindAtLine doc line = firstRuleMatch apexRuleTable doc line ∧
    (enumRule doc line = false → ctorRule doc line = true → methodRule doc line = true →
      apexKindAtLine doc line = some ApexKind.ctor) ∧
    (apexKindAtLine doc line = none ↔
      (enumRule doc line = false ∧ ctorRule doc line = false ∧ methodRule doc line = false ∧
       classRule doc line = false ∧ propertyRule doc line = false)) := by
  cases he : enumRule doc line <;> cases hc : ctorRule doc line <;>
    cases hm : methodRule doc line <;> cases hcl : classRule doc line <;>
    cases hp : propertyRule doc line <;>
    simp [apexKindAtLine, firstRuleMatch, apexRuleTable, List.findSome?, he, hc, hm, hcl, hp]

/-- Witness for C7: `public Foo(Integer a)` inside `class Foo` matches
both the constructor and the method pattern and is classified as a
constructor. -/
theorem claim_C7_witness : apexKindAtLine exDocCtor 1 = some ApexKind.ctor :=
  (claim_C7 exDocCtor 1).2.1 (by decide) (by decide) (by decide)

/-! ## Claim C1 -/

/-- Counterexample to claim C1 as stated: in `exDocRedirect` the focus
line 1 lies strictly between the matching lines 0 (class) and 3
(method), both within the 200-line window, and lines 1 and 2 match no
rule; yet `detectApexKindAndLine` returns the downward match at line 3,
because the focus line is adjacent to the annotation run at line 2 and
the redirect pre-pass scans downward first. -/
theorem claim_C1_counterexample :
    detectApexKindAndLine exDocRedirect 1 = some (ApexKind.method, 3) ∧
    apexKindAtLine exDocRedirect 0 = some ApexKind.cls ∧
    apexKindAtLine exDocRedirect 1 = none ∧
    apexKindAtLine exDocRedirect 2 = none ∧
    apexKindAtLine exDocRedirect 3 = some ApexKind.method := by
  decide

/-- Claim C1 (amended): when the focus line is neither an annotation
line nor inside/adjacent to an annotation run (so the downward redirect
does not fire), a focus line strictly between two grammar-matching
lines within the scan window makes `detectApexKindAndLine` return the
nearest upward match — the matching line at or above the focus line —
never the downward one. -/
theorem claim_C1_amended (doc : List String) (focus u d : Nat)
    (hctx : inAnnotationContext doc focus = false)
    (hu1 : u ≤ focus) (hu2 : focus - 200 ≤ u) (hum : apexKindAtLine doc u ≠ none)
    (hd1 : focus < d) (hd2 : d ≤ focus + 200) (hd3 : d < doc.length)
    (hdm : apexKindAtLine doc d ≠ none) :
    ∃ k j, detectApexKindAndLine doc focus = some (k, j) ∧ j ≤ focus ∧
      apexKindAtLine doc j = some k ∧
      ∀ l, j < l → l ≤ focus → apexKindAtLine doc l = none := by
  have hfu : kindHit doc u ≠ none := by
    unfold kindHit
    cases h : apexKindAtLine doc u with
    | none => exact absurd h hum
    | some k => simp
  obtain ⟨b, hb⟩ := scanUpF_isSome (kindHit doc) (focus - 200) focus u hu1 hu2 hfu
  obtain ⟨j, hj1, hj2, hj3⟩ := scanUpF_spec (kindHit doc) (focus - 200) focus b hb
  have hbj : apexKindAtLine doc j = some b.1 ∧ b.2 = j := by
    unfold kindHit at hj2
    cases h : apexKindAtLine doc j with
    | none => rw [h] at hj2; cases hj2
    | some k => rw [h] at hj2; cases hj2; exact ⟨rfl, rfl⟩
  refine ⟨b.1, j, ?_, hj1, hbj.1, ?_⟩
  · unfold detectApexKindAndLine
    rw [hctx]
    simp only [Bool.false_eq_true, if_false]
    have hbeq : b = (b.1, j) := by
      cases b with
      | mk k n =>
        simp only at hbj ⊢
        rw [hbj.2]
    rw [hb, ← hbeq]
  · intro l hl1 hl2
    have hnone := hj3 l hl1 hl2
    unfold kindHit at hnone
    cases h : apexKindAtLine doc l with
    | none => rfl
    | some k => rw [h] at hnone; cases hnone

/-- Witness for the amended C1: focus line 1 of `exDocUpward` sits
between the class at line 0 and the method at line 2; the locator
returns the upward match at line 0. -/
theorem claim_C1_amended_witness :
    ∃ k j, detectApexKindAndLine exDocUpward 1 = some (k, j) ∧ j ≤ 1 ∧
      apexKindAtLine exDocUpward j = some k ∧
      ∀ l, j < l → l ≤ 1 → apexKindAtLine exDocUpward l = none :=
  claim_C1_amended exDocUpward 1 0 2 (by decide) (by decide) (by decide) (by decide)
    (by decide) (by decide) (by decide) (by decide)

/-! ## Claim C4 -/

/-- Claim C4: when the focus line is an annotation line or inside an
annotation run, `detectApexKindAndLine` first advances strictly forward
past all consecutive blank/annotation lines from the focus line, then
scans downward applying the grammar, and returns that downward result
when one exists, in preference to any upward scan: the skip position is
at or after the focus line, every line strictly before it (from the
focus) is blank or an annotation, it is itself not blank/annotation
unless the document ended, and the returned site is the first grammar
match at or after it. -/
theorem claim_C4 (doc : List String) (fromLine : Nat) (r : ApexKind × Nat)
    (hctx : inAnnotationContext doc fromLine = true)
    (hdown : findNextDeclDown doc fromLine = some r) :
    detectApexKindAndLine doc fromLine = some r ∧
    fromLine ≤ skipBlankAnnoDown doc fromLine ∧
    (∀ j, fromLine ≤ j → j < skipBlankAnnoDown doc fromLine →
      blankAnnoAt doc j = true) ∧
    (doc.length ≤ skipBlankAnnoDown doc fromLine ∨
      blankAnnoAt doc (skipBlankAnnoDown doc fromLine) = false) ∧
    skipBlankAnnoDown doc fromLine ≤ r.2 ∧
    apexKindAtLine doc r.2 = some r.1 ∧
    (∀ l, skipBlankAnnoDown doc fromLine ≤ l → l < r.2 → apexKindAtLine doc l = none) := by
  have hdetect : detectApexKindAndLine doc fromLine = some r := by
    unfold detectApexKindAndLine
    rw [hctx]
    simp only [if_true]
    rw [hdown]
  have hskip := skipBlankAnnoFuel_le doc (doc.length - fromLine) fromLine
  have hmid := fun j h1 h2 =>
    (skipBlankAnnoFuel_mid doc (doc.length - fromLine) fromLine j h1 h2).2
  have hstop := skipBlankAnnoFuel_stop doc (doc.length - fromLine) fromLine (by omega)
  obtain ⟨k, hk1, hk2, hk3⟩ := scanDownFuel_spec (kindHit doc) _ _ r hdown
  have hkr : apexKindAtLine doc (skipBlankAnnoDown doc fromLine + k) = some r.1 ∧
      r.2 = skipBlankAnnoDown doc fromLine + k := by
    unfold kindHit at hk2
    cases h : apexKindAtLine doc (skipBlankAnnoDown doc fromLine + k) with
    | none => rw [h] at hk2; cases hk2
    | some kk => rw [h] at hk2; cases hk2; exact ⟨rfl, rfl⟩
  refine ⟨hdetect, hskip, hmid, hstop, ?_, ?_, ?_⟩
  · rw [hkr.2]; omega
  · rw [hkr.2]; exact hkr.1
  · intro l hl1 hl2
    rw [hkr.2] at hl2
    have hl : l = skipBlankAnnoDown doc fromLine + (l - skipBlankAnnoDown doc fromLine) := by
      omega
    have hnone := hk3 (l - skipBlankAnnoDown doc fromLine) (by omega)
    rw [← hl] at hnone
    unfold kindHit at hnone
    cases h : apexKindAtLine doc l with
    | none => rfl
    | some kk => rw [h] at hnone; cases hnone

/-- Witness for C4: the cursor on the annotation line 2 of
`exDocRedirect` redirects the locator to the method at line 3. -/
theorem claim_C4_witness :
    detectApexKindAndLine exDocRedirect 2 = some (ApexKind.method, 3) ∧
    2 ≤ skipBlankAnnoDown exDocRedirect 2 ∧
    (∀ j, 2 ≤ j → j < skipBlankAnnoDown exDocRedirect 2 →
      blankAnnoAt exDocRedirect j = true) ∧
    (exDocRedirect.length ≤ skipBlankAnnoDown exDocRedirect 2 ∨
      blankAnnoAt exDocRedirect (skipBlankAnnoDown exDocRedirect 2) = false) ∧
    skipBlankAnnoDown exDocRedirect 2 ≤ (ApexKind.method, 3).2 ∧
    apexKindAtLine exDocRedirect (ApexKind.method, 3).2 = some (ApexKind.method, 3).1 ∧
    (∀ l, skipBlankAnnoDown exDocRedirect 2 ≤ l → l < (ApexKind.method, 3).2 →
      apexKindAtLine exDocRedirect l = none) :=
  claim_C4 exDocRedirect 2 (ApexKind.method, 3) (by decide) (by decide)

/-! ## Claim C2 -/

/-- Counterexample to claim C2 as stated: on the document whose single
line is `void foo(Integer a, String b)` — no body-open or terminator
token after the closing parenthesis — `getApexParams` at kind = method
returns `[]`, not `["a", "b"]`: the accumulation never sees a line
matching "close-paren then body-open/terminator", so the signature is
treated as never reaching a clean close. -/
theorem claim_C2_counterexample :
    getApexParams exDocOneLine 0 MCKind.method = [] ∧
    getApexParams exDocOneLine 0 MCKind.method ≠ ["a", "b"] := by
  decide

/-- Claim C2 (amended): `getApexParams` at kind = method yields
`["a", "b"]` on the single-line signature `void foo(Integer a, String
b) {` (the close must be followed by a body-open or terminator token),
yields `[]` on `void foo()`, and reassembles the two-line signature
`void foo(Integer a,` / `String b) {` into `["a", "b"]`. -/
theorem claim_C2_amended :
    getApexParams exDocOneLineBrace 0 MCKind.method = ["a", "b"] ∧
    getApexParams exDocEmptyParams 0 MCKind.method = [] ∧
    getApexParams exDocTwoLine 0 MCKind.method = ["a", "b"] := by
  decide

end ApexDocGen
